import Mathlib

/-!
Shallow embedding of the `ragatouille-book` repository's algorithmic code:
the RAPTOR recursive embed/cluster/summarize routine (`6_Indexing.ipynb`),
the reciprocal-rank-fusion reranker (`rrf` in the retrieval notebook),
the CRAG/Self-RAG workflow graph (`9_Generation_2.ipynb`), the notebooks'
vector-store persistence cells, and the multi-query generation chain.
External services (UMAP, scikit-learn Gaussian mixtures, hosted chat and
embedding APIs, the Chroma vector database) are represented by oracle
structures; every repository-authored computation is translated from the
notebook source.
-/

set_option maxHeartbeats 1000000

namespace Raptor

/-- An embedding vector, as produced by the external embedding API
(`np.ndarray` row in the notebook). -/
abbrev Emb : Type := List ℚ

/-- Arguments passed by the notebook to the `umap.UMAP` constructor.
`global_cluster_embeddings` and `local_cluster_embeddings` pass
`n_neighbors`, `n_components` and `metric` and never pass a
`random_state`, even though the notebook defines `RANDOM_SEED = 224`. -/
structure UMAPParams where
  n_neighbors : ℕ
  n_components : ℕ
  metric : String
  random_state : Option ℕ
deriving DecidableEq

/-- Calls the notebook code makes to external libraries and services,
recorded as an event trace. -/
inductive Event where
  | umapGlobal : Event
  | gmmGlobal : Event
  | umapLocal : Event
  | gmmLocal : Event
  | embedCall : Event
  | llmCall : Event
deriving DecidableEq

/-- Oracles for the external numerical libraries and hosted services the
notebook delegates to: `umap.UMAP(...).fit_transform`, Gaussian-mixture
BIC scores and posterior probabilities (`sklearn.mixture.GaussianMixture`),
the embedding API (`embeddings.embed_documents`), and the summarization
chain's hosted LLM.  `umap_len` records the UMAP contract that
`fit_transform` returns one reduced row per input row. -/
structure Ext where
  umap : UMAPParams → List Emb → List Emb
  umap_len : ∀ p x, (umap p x).length = x.length
  gmmBIC : ℕ → ℕ → List Emb → ℚ
  gmmProba : ℕ → ℕ → List Emb → List (List ℚ)
  embedDocs : List String → List Emb
  llm : String → String

/-- Notebook constant `RANDOM_SEED = 224  # Fixed seed for reproducibility`. -/
def RANDOM_SEED : ℕ := 224

/-- The `umap.UMAP` arguments built by `global_cluster_embeddings`: no
`random_state` is passed. -/
def global_umap_params (n_neighbors dim : ℕ) (metric : String) : UMAPParams :=
  ⟨n_neighbors, dim, metric, none⟩

/-- Function `global_cluster_embeddings`: global UMAP dimensionality reduction;
`n_neighbors` defaults to `int((len(embeddings) - 1) ** 0.5)`. -/
def global_cluster_embeddings (E : Ext) (embeddings : List Emb) (dim : ℕ)
    (n_neighbors : Option ℕ := none) (metric : String := "cosine") : List Emb :=
  let nn := n_neighbors.getD (Nat.sqrt (embeddings.length - 1))
  E.umap (global_umap_params nn dim metric) embeddings

/-- The `umap.UMAP` arguments built by `local_cluster_embeddings`: no
`random_state` is passed. -/
def local_umap_params (num_neighbors dim : ℕ) (metric : String) : UMAPParams :=
  ⟨num_neighbors, dim, metric, none⟩

/-- Function `local_cluster_embeddings`: local UMAP reduction with
`num_neighbors = 10` by default. -/
def local_cluster_embeddings (E : Ext) (embeddings : List Emb) (dim : ℕ)
    (num_neighbors : ℕ := 10) (metric : String := "cosine") : List Emb :=
  E.umap (local_umap_params num_neighbors dim metric) embeddings

/-- First minimizer of `f` over a list: the element `np.argmin` selects
(the earliest index attaining the minimum), `none` on an empty list
(where `np.argmin` raises). -/
def argminFirst (f : α → ℚ) : List α → Option α
  | [] => none
  | x :: xs =>
    match argminFirst f xs with
    | none => some x
    | some b => if f b < f x then some b else some x

/-- Function `get_optimal_clusters`: BIC model selection.  Candidate component
counts are `np.arange(1, min(max_clusters, len(embeddings)))`, i.e.
`1, ..., min(max_clusters, len(embeddings)) - 1`; the candidate whose BIC
is smallest (first on ties, as `np.argmin`) is returned, `none` when the
candidate range is empty. -/
def get_optimal_clusters (E : Ext) (embeddings : List Emb)
    (max_clusters : ℕ := 50) (random_state : ℕ := RANDOM_SEED) : Option ℕ :=
  let mc := min max_clusters embeddings.length
  argminFirst (fun n => E.gmmBIC n random_state embeddings) (List.range' 1 (mc - 1))

/-- Function `GMM_cluster`: fit a Gaussian mixture with the BIC-optimal component
count, then soft-assign each embedding the set of component indices whose
posterior probability exceeds `threshold`
(`np.where(prob > threshold)[0]`). -/
def GMM_cluster (E : Ext) (embeddings : List Emb) (threshold : ℚ)
    (random_state : ℕ := 0) : Option (List (List ℕ) × ℕ) :=
  (get_optimal_clusters E embeddings).map (fun n_clusters =>
    let probs := E.gmmProba n_clusters random_state embeddings
    (probs.map (fun prob =>
      prob.enum.filterMap (fun jp => if threshold < jp.2 then some jp.1 else none)),
     n_clusters))

/-- The update `all_local_clusters[idx] = np.append(all_local_clusters[idx], v)`. -/
def appendAt (l : List (List ℕ)) (i v : ℕ) : List (List ℕ) :=
  l.set i ((l.getD i []) ++ [v])

/-- One iteration of `perform_clustering`'s loop over global cluster `i`:
select the embeddings soft-assigned to `i`, skip if none, directly assign
a single local cluster if at most `dim + 1` remain, otherwise locally
reduce with UMAP and cluster with `GMM_cluster`; then append each local
cluster ID, offset by `total` (the clusters already processed), to every
embedding row equal to a member of that local cluster
(`np.where((embeddings == local_cluster_embeddings_[:, None]).all(-1))[1]`).
State is `(all_local_clusters, total_clusters, trace)`. -/
def localStep (E : Ext) (dim : ℕ) (threshold : ℚ) (embeddings : List Emb)
    (global_clusters : List (List ℕ)) (st : List (List ℕ) × ℕ × List Event)
    (i : ℕ) : Option (List (List ℕ) × ℕ × List Event) :=
  let all := st.1
  let total := st.2.1
  let tr := st.2.2
  let sel := (embeddings.zip global_clusters).filterMap
    (fun egc => if i ∈ egc.2 then some egc.1 else none)
  if sel.length = 0 then some st
  else
    let localRes : Option (List (List ℕ) × ℕ × List Event) :=
      if sel.length ≤ dim + 1 then
        some (sel.map (fun _ => ([0] : List ℕ)), 1, ([] : List Event))
      else
        (GMM_cluster E (local_cluster_embeddings E sel dim) threshold).map
          (fun lc => (lc.1, lc.2, [Event.umapLocal, Event.gmmLocal]))
    localRes.map (fun lres =>
      let local_clusters := lres.1
      let n_local := lres.2.1
      let all2 := (List.range n_local).foldl (fun acc j =>
        let local_sel := (sel.zip local_clusters).filterMap
          (fun slc => if j ∈ slc.2 then some slc.1 else none)
        let indices := local_sel.flatMap (fun row =>
          embeddings.enum.filterMap (fun ie => if ie.2 = row then some ie.1 else none))
        indices.foldl (fun a idx => appendAt a idx (j + total)) acc) all
      (all2, total + n_local, tr ++ lres.2.2))

/-- Function `perform_clustering(embeddings, dim, threshold)`: with at most
`dim + 1` rows, return cluster `[0]` for every row without touching UMAP
or the mixture model; otherwise reduce globally with UMAP, cluster with
`GMM_cluster`, then run `localStep` for each global cluster.  Returns the
per-embedding local cluster IDs together with the external-call trace;
`none` models the `np.argmin`-on-empty error path. -/
def perform_clustering (E : Ext) (embeddings : List Emb) (dim : ℕ)
    (threshold : ℚ) : Option (List (List ℕ) × List Event) :=
  if embeddings.length ≤ dim + 1 then
    some (embeddings.map (fun _ => ([0] : List ℕ)), [])
  else
    (GMM_cluster E (global_cluster_embeddings E embeddings dim) threshold).bind
      (fun gc =>
        ((List.range gc.2).foldl
            (fun ost i => ost.bind (fun st => localStep E dim threshold embeddings gc.1 st i))
            (some (embeddings.map (fun _ => ([] : List ℕ)), 0, ([] : List Event)))).map
          (fun fst3 => (fst3.1, Event.umapGlobal :: Event.gmmGlobal :: fst3.2.2)))

/-- A `df_clusters` row: the `text`, `embd` and `cluster` columns. -/
abbrev DF : Type := List (String × Emb × List ℕ)

/-- A `df_summary` row: the `summaries`, `level` and `cluster` columns. -/
abbrev DFS : Type := List (String × ℕ × ℕ)

/-- Function `embed`: call the external embedding API on the texts. -/
def embed (E : Ext) (texts : List String) : List Emb :=
  E.embedDocs texts

/-- Function `embed_cluster_texts`: embed the texts and cluster them with
`perform_clustering(text_embeddings_np, 10, 0.1)`, building the DataFrame
with `text`, `embd` and `cluster` columns. -/
def embed_cluster_texts (E : Ext) (texts : List String) :
    Option (DF × List Event) :=
  let text_embeddings_np := embed E texts
  (perform_clustering E text_embeddings_np 10 (1/10)).map (fun ct =>
    (texts.zip (text_embeddings_np.zip ct.1), Event.embedCall :: ct.2))

/-- Function `fmt_txt`: join the `text` column with the notebook's delimiter. -/
def fmt_txt (texts : List String) : String :=
  String.intercalate ("--- --- \n --- --- ") texts

/-- The summarization prompt template of `embed_cluster_summarize_texts`,
applied to a formatted cluster context. -/
def summary_template (context : String) : String :=
  "Here is a sub-set of LangChain Expression Language doc. \n    \n    LangChain Expression Language provides a way to compose chain in LangChain.\n    \n    Give a detailed summary of the documentation provided.\n    \n    Documentation:\n    " ++ context ++ "\n    "

/-- First-occurrence deduplication, as `pandas.Series.unique`. -/
def uniqueFirst [DecidableEq α] (l : List α) : List α :=
  l.foldl (fun acc x => if x ∈ acc then acc else acc ++ [x]) []

/-- Function `embed_cluster_summarize_texts`: embed and cluster the texts, expand
the DataFrame to (text, cluster) pairs, take the unique cluster IDs, and
invoke the summarization chain once per unique cluster, producing
`df_summary` with `summaries`, `level` and `cluster` columns. -/
def embed_cluster_summarize_texts (E : Ext) (texts : List String)
    (level : ℕ) : Option ((DF × DFS) × List Event) :=
  (embed_cluster_texts E texts).map (fun dft =>
    let df_clusters := dft.1
    let expanded := df_clusters.flatMap (fun row => row.2.2.map (fun c => (row.1, c)))
    let all_clusters := uniqueFirst (expanded.map (fun p => p.2))
    let df_summary : DFS := all_clusters.map (fun c =>
      (E.llm (summary_template (fmt_txt
        ((expanded.filter (fun p => p.2 = c)).map (fun p => p.1)))), level, c))
    ((df_clusters, df_summary), dft.2 ++ all_clusters.map (fun _ => Event.llmCall)))

/-- Function `recursive_embed_cluster_summarize`: run
`embed_cluster_summarize_texts` at the current level, store the result
under key `level`, and recurse on the summaries at `level + 1` exactly
when `level < n_levels` and the number of unique clusters exceeds 1.
The result dictionary is represented by an insertion-ordered association
list (the notebook's defaults are `level = 1`, `n_levels = 3`). -/
def recursive_embed_cluster_summarize (E : Ext) (texts : List String)
    (level : ℕ) (n_levels : ℕ) : Option (List (ℕ × (DF × DFS))) :=
  match embed_cluster_summarize_texts E texts level with
  | none => none
  | some res =>
    let df_summary := res.1.2
    let unique_clusters := (uniqueFirst (df_summary.map (fun r => r.2.2))).length
    if h : level < n_levels ∧ 1 < unique_clusters then
      match recursive_embed_cluster_summarize E (df_summary.map (fun r => r.1))
          (level + 1) n_levels with
      | none => none
      | some rest => some ((level, res.1) :: rest)
    else
      some [(level, res.1)]
termination_by n_levels - level
decreasing_by
  have := h.1
  omega

/-- A trivial oracle bundle: UMAP is the identity, BIC prefers fewer
components, every posterior probability is 1, embeddings are singleton
vectors, summaries echo the prompt. -/
def extId : Ext where
  umap := fun _ x => x
  umap_len := fun _ _ => rfl
  gmmBIC := fun n _ _ => (n : ℚ)
  gmmProba := fun n _ data => data.map (fun _ => List.replicate n 1)
  embedDocs := fun ts => ts.map (fun _ => ([0] : List ℚ))
  llm := fun s => s

end Raptor

namespace Retrieval

/-- One step of the `fused_scores` dict update in `rrf`: add `s` to the
entry for `doc` (first occurrence), initializing it at 0 if absent.
Documents are identified by their `dumps` serialization, so they are
plain strings here. -/
def addScore (fused : List (String × ℚ)) (doc : String) (s : ℚ) :
    List (String × ℚ) :=
  match fused with
  | [] => [(doc, s)]
  | (d, v) :: rest => if d = doc then (d, v + s) :: rest else (d, v) :: addScore rest doc s

/-- The `fused_scores` dictionary built by `rrf`: for each ranked list and
each document at 0-based `rank` in it, add `1 / (rank + k)` to the
document's score.  Insertion order of the Python dict is modelled by the
association list. -/
def rrfFuse (results : List (List String)) (k : ℚ) : List (String × ℚ) :=
  results.foldl (fun fused docs =>
    docs.enum.foldl (fun f rd => addScore f rd.2 (1 / ((rd.1 : ℚ) + k))) fused) []

/-- The descending-by-score order used by
`sorted(fused_scores.items(), key=lambda x: x[1], reverse=True)`. -/
def byScoreDesc : (String × ℚ) → (String × ℚ) → Prop :=
  fun a b => b.2 ≤ a.2

instance : DecidableRel byScoreDesc :=
  fun a b => inferInstanceAs (Decidable (b.2 ≤ a.2))

instance : IsTotal (String × ℚ) byScoreDesc :=
  ⟨fun a b => le_total b.2 a.2⟩

instance : IsTrans (String × ℚ) byScoreDesc :=
  ⟨fun _ _ _ h1 h2 => le_trans h2 h1⟩

/-- Function `rrf(results, k=60)`: reciprocal rank fusion.  Builds `fused_scores`
and returns its entries sorted by score in descending order (Python's
`sorted` is stable; so is insertion sort). -/
def rrf (results : List (List String)) (k : ℚ := 60) : List (String × ℚ) :=
  List.insertionSort byScoreDesc (rrfFuse results k)

/-- Specification-side score of a document: the sum over every occurrence
of the document, in any of the ranked lists, of `1 / (rank + k)`. -/
def rrfSpecScore (results : List (List String)) (k : ℚ) (d : String) : ℚ :=
  (results.map (fun docs =>
    (docs.enum.map (fun rd => if rd.2 = d then 1 / ((rd.1 : ℚ) + k) else 0)).sum)).sum

/-- First-match lookup in an association list (Python dict access). -/
def lookupScore (f : List (String × ℚ)) (d : String) : ℚ :=
  match f with
  | [] => 0
  | (key, v) :: rest => if key = d then v else lookupScore rest d

end Retrieval

namespace Crag

/-- The nodes of the compiled CRAG workflow `StateGraph`, plus `END`. -/
inductive Node where
  | retrieve : Node
  | web_search : Node
  | fallback : Node
  | generate : Node
  | grade_documents : Node
  | endNode : Node
deriving DecidableEq

/-- The notebook's `GraphState`: `question`, `generation`, `documents`. -/
structure GraphState where
  question : String
  generation : String
  documents : List String
deriving DecidableEq

/-- Oracles for the LLM grading chains the workflow invokes: the query
router's datasource, the per-document relevance grade, the hallucination
grade, and the answer grade (each a `yes`/`no` or datasource string). -/
structure CragExt where
  routeDatasource : String → String
  docGrade : String → String → String
  hallucinationGrade : List String → String → String
  answerGrade : String → String → String

/-- Function `route_question`: map the router's datasource to the entry label. -/
def route_question (E : CragExt) (st : GraphState) : String :=
  let ds := E.routeDatasource st.question
  if ds = "vectorstore" then "retrieve"
  else if ds = "web_search" then "web_search"
  else "fallback"

/-- Function `decide_to_generate`: `web_search` when the filtered document list is
empty, `generate` otherwise. -/
def decide_to_generate (st : GraphState) : String :=
  if st.documents = [] then "web_search" else "generate"

/-- Function `evaluate_response`: grade the generation for groundedness, then for
answering the question; returns `useful`, `notuseful` or
`not supported`. -/
def evaluate_response (E : CragExt) (st : GraphState) : String :=
  if E.hallucinationGrade st.documents st.generation = "yes" then
    if E.answerGrade st.question st.generation = "yes" then "useful"
    else "notuseful"
  else "not supported"

/-- The `grade_documents` node body: keep only the documents the grading
chain marks relevant. -/
def grade_documents_run (E : CragExt) (st : GraphState) : GraphState :=
  { st with documents := st.documents.filter (fun d => E.docGrade d st.question = "yes") }

/-- First-match association-list lookup (the label-to-node dictionaries
passed to `add_conditional_edges`). -/
def alookup (a : String) : List (String × Node) → Option Node
  | [] => none
  | (key, v) :: rest => if key = a then some v else alookup a rest

/-- The conditional-edge dictionary attached to `grade_documents`. -/
def grade_documents_edges : List (String × Node) :=
  [("web_search", Node.web_search), ("generate", Node.generate)]

/-- The conditional-edge dictionary attached to `generate`. -/
def generate_edges : List (String × Node) :=
  [("useful", Node.endNode), ("notuseful", Node.web_search),
   ("not supported", Node.generate)]

/-- The conditional entry-point dictionary. -/
def entry_edges : List (String × Node) :=
  [("retrieve", Node.retrieve), ("web_search", Node.web_search),
   ("fallback", Node.fallback)]

/-- The workflow's entry node, per `set_conditional_entry_point`. -/
def entryNode (E : CragExt) (st : GraphState) : Option Node :=
  alookup (route_question E st) entry_edges

/-- The edge taken after a node finishes, per the `add_edge` /
`add_conditional_edges` wiring of the compiled workflow: `retrieve` flows
to `grade_documents`, `web_search` to `generate`, `fallback` to `END`,
`grade_documents` branches on `decide_to_generate`, and `generate`
branches on `evaluate_response`. -/
def nextAfter (E : CragExt) (st : GraphState) : Node → Option Node
  | Node.retrieve => some Node.grade_documents
  | Node.web_search => some Node.generate
  | Node.fallback => some Node.endNode
  | Node.generate => alookup (evaluate_response E st) generate_edges
  | Node.grade_documents => alookup (decide_to_generate st) grade_documents_edges
  | Node.endNode => none

/-- Claim C6's reading of the workflow: grading outcomes never re-route
execution, i.e. a finished generation always proceeds to `END` and graded
documents always proceed to `generate`, regardless of the grades. -/
def NoCorrectiveRerouting : Prop :=
  ∀ (E : CragExt) (st : GraphState),
    nextAfter E st Node.generate = some Node.endNode ∧
    nextAfter E st Node.grade_documents = some Node.generate

/-- Oracles answering `yes` everywhere (and routing to the vectorstore). -/
def cragExtYes : CragExt where
  routeDatasource := fun _ => "vectorstore"
  docGrade := fun _ _ => "yes"
  hallucinationGrade := fun _ _ => "yes"
  answerGrade := fun _ _ => "yes"

/-- Oracles answering `no` everywhere. -/
def cragExtNo : CragExt where
  routeDatasource := fun _ => "fallback"
  docGrade := fun _ _ => "no"
  hallucinationGrade := fun _ _ => "no"
  answerGrade := fun _ _ => "no"

/-- A concrete graph state with no documents. -/
def stEmpty : GraphState := ⟨"q", "g", []⟩

end Crag

namespace Storage

/-- A Chroma vector-store construction site in the notebooks: whether the
call passes a `persist_directory`. -/
structure ChromaStore where
  persist_directory : Option String
deriving DecidableEq

/-- Modelled from the spec: the external Chroma vector database's on-disk
format is not part of this repository; per the spec it "depends entirely
on external service APIs ... and an external vector database's on-disk
format", and the captured library notice states documents are persisted
under the configured directory.  A store built with a
`persist_directory` (all such sites also call `vectorstore.persist()`)
durably writes its documents and embeddings there; a store without one is
in-memory only. -/
def durableWrites (s : ChromaStore) : List String :=
  match s.persist_directory with
  | some d => [d]
  | none => []

/-- Notebook `3_HyDE.ipynb`: `Chroma.from_documents(..., persist_directory="data/vectorstore")`
followed by `vectorstore.persist()`. -/
def hydeStore : ChromaStore := ⟨some ("data/vectorstore")⟩

/-- First unnamed notebook (basic QA): `Chroma.from_documents(...,
persist_directory="data/vectorstore")` followed by `vectorstore.persist()`. -/
def qaStore : ChromaStore := ⟨some ("data/vectorstore")⟩

/-- First unnamed notebook, `generate_vectorstores("data/LoRA.pdf",
"data/vectorstore_lora")`. -/
def routingLoraStore : ChromaStore := ⟨some ("data/vectorstore_lora")⟩

/-- First unnamed notebook, `generate_vectorstores("data/BERT.pdf",
"data/vectorstore_bert")`. -/
def routingBertStore : ChromaStore := ⟨some ("data/vectorstore_bert")⟩

/-- Second unnamed notebook (retrieval/reranking): `Chroma.from_documents(...,
persist_directory="data/vectorstore")` followed by `vectorstore.persist()`. -/
def retrievalStore : ChromaStore := ⟨some ("data/vectorstore")⟩

/-- Notebook `6_Indexing.ipynb`: `Chroma(collection_name="summaries", ...)`, no
persist directory. -/
def summariesStore : ChromaStore := ⟨none⟩

/-- Notebook `6_Indexing.ipynb` RAPTOR section: `Chroma.from_texts(texts=all_texts,
...)`, no persist directory. -/
def raptorStore : ChromaStore := ⟨none⟩

/-- Notebook `9_Generation_2.ipynb`: `Chroma.from_documents(documents=doc_splits,
collection_name="rag-chroma", ...)`, no persist directory. -/
def cragStore : ChromaStore := ⟨none⟩

/-- Every Chroma vector-store construction in the repository. -/
def repositoryStores : List ChromaStore :=
  [hydeStore, qaStore, routingLoraStore, routingBertStore, retrievalStore,
   summariesStore, raptorStore, cragStore]

/-- All directories the repository's notebook code durably writes
documents or embeddings to. -/
def repositoryDurableWrites : List String :=
  (repositoryStores.map durableWrites).flatten

end Storage

namespace MultiQuery

/-- The arguments of a `ChatOpenAI(...)` construction. -/
structure ChatConfig where
  model : String
  temperature : ℚ
deriving DecidableEq

/-- The LLM of the multi-query `generate_queries` chain:
`ChatOpenAI(model='gpt-4', temperature=0.7)`. -/
def generate_queries_llm : ChatConfig := ⟨"gpt-4", 7/10⟩

/-- The multi-query prompt template applied to the question. -/
def multi_query_prompt (question : String) : String :=
  "\n    You are an intelligent assistant. Your task is to generate 4 questions based on the provided question in different wording and different perspectives to retrieve relevant documents from a vector database. By generating multiple perspectives on the user question, your goal is to help the user overcome some of the limitations of the distance-based similarity search. Provide these alternative questions separated by newlines. Original question: " ++ question ++ "\n    "

/-- Modelled from the spec: the hosted chat-completion API is external to
the repository; per the spec the notebooks produce "illustrative,
non-deterministic LLM outputs".  At temperature 0 decoding is greedy (a
function of the prompt alone); at positive temperature the completion
samples from the provider's randomness source, modelled as a `noise`
value the output depends on. -/
def chatComplete (cfg : ChatConfig) (prompt : String) (noise : ℕ) : String :=
  if cfg.temperature = 0 then ("greedy:") ++ prompt
  else ("sampled:") ++ (toString noise) ++ (":") ++ prompt

/-- Python's `str.split` with a single-character separator, on the
character list: cut at every separator, keeping empty pieces. -/
def splitCharAux (sep : Char) : List Char → List Char → List String
  | [], acc => [String.mk acc.reverse]
  | c :: cs, acc =>
    if c = sep then String.mk acc.reverse :: splitCharAux sep cs []
    else splitCharAux sep cs (c :: acc)

/-- The split `x.split("\n")` from the `generate_queries` chain. -/
def splitNewlines (s : String) : List String :=
  splitCharAux ('\n') s.data []

/-- The `generate_queries` chain: prompt, 0.7-temperature chat model,
string output parsing, split on newlines. -/
def generate_queries (question : String) (noise : ℕ) : List String :=
  splitNewlines (chatComplete generate_queries_llm (multi_query_prompt question) noise)

end MultiQuery

namespace Raptor

theorem argminFirst_nil (f : α → ℚ) : argminFirst f [] = none := rfl

theorem argminFirst_isSome_iff (f : α → ℚ) (l : List α) :
    (argminFirst f l).isSome ↔ l ≠ [] := by
  cases l with
  | nil => simp [argminFirst]
  | cons x xs =>
    simp only [ne_eq, List.cons_ne_nil, not_false_iff, iff_true, argminFirst]
    cases harg : argminFirst f xs with
    | none => simp
    | some b => by_cases hf : f b < f x <;> simp [hf]

theorem argminFirst_mem (f : α → ℚ) :
    ∀ (l : List α) (a : α), argminFirst f l = some a → a ∈ l := by
  intro l
  induction l with
  | nil => intro a h; simp [argminFirst] at h
  | cons x xs ih =>
    intro a h
    simp only [argminFirst] at h
    cases harg : argminFirst f xs with
    | none =>
      rw [harg] at h
      simp only [Option.some.injEq] at h
      exact h ▸ List.mem_cons_self x xs
    | some b =>
      rw [harg] at h
      dsimp only at h
      by_cases hf : f b < f x
      · rw [if_pos hf] at h
        simp only [Option.some.injEq] at h
        exact List.mem_cons_of_mem x (h ▸ ih b harg)
      · rw [if_neg hf] at h
        simp only [Option.some.injEq] at h
        exact h ▸ List.mem_cons_self x xs

theorem argminFirst_le (f : α → ℚ) :
    ∀ (l : List α) (a : α), argminFirst f l = some a → ∀ b ∈ l, f a ≤ f b := by
  intro l
  induction l with
  | nil => intro a h; simp [argminFirst] at h
  | cons x xs ih =>
    intro a h b hb
    simp only [argminFirst] at h
    cases harg : argminFirst f xs with
    | none =>
      have hxs : xs = [] := by
        by_contra hne
        have := (argminFirst_isSome_iff f xs).mpr hne
        rw [harg] at this
        simp at this
      rw [harg] at h
      simp only [Option.some.injEq] at h
      subst h
      rcases List.mem_cons.mp hb with hbx | hbxs
      · exact hbx ▸ le_refl _
      · rw [hxs] at hbxs; simp at hbxs
    | some m =>
      rw [harg] at h
      dsimp only at h
      by_cases hf : f m < f x
      · rw [if_pos hf] at h
        simp only [Option.some.injEq] at h
        subst h
        rcases List.mem_cons.mp hb with hbx | hbxs
        · exact hbx ▸ le_of_lt hf
        · exact ih m harg b hbxs
      · rw [if_neg hf] at h
        simp only [Option.some.injEq] at h
        subst h
        rcases List.mem_cons.mp hb with hbx | hbxs
        · exact hbx ▸ le_refl _
        · exact le_trans (not_lt.mp hf) (ih m harg b hbxs)

theorem get_optimal_clusters_isSome_iff (E : Ext) (emb : List Emb) :
    (get_optimal_clusters E emb).isSome ↔ 2 ≤ emb.length := by
  unfold get_optimal_clusters
  rw [argminFirst_isSome_iff]
  simp only [ne_eq, List.range'_eq_nil]
  omega

theorem get_optimal_clusters_spec (E : Ext) (emb : List Emb) (n : ℕ)
    (h : get_optimal_clusters E emb = some n) :
    n ∈ List.range' 1 (min 50 emb.length - 1) ∧
      ∀ m ∈ List.range' 1 (min 50 emb.length - 1),
        E.gmmBIC n RANDOM_SEED emb ≤ E.gmmBIC m RANDOM_SEED emb := by
  unfold get_optimal_clusters at h
  exact ⟨argminFirst_mem _ _ _ h, argminFirst_le _ _ _ h⟩

theorem GMM_cluster_eq (E : Ext) (emb : List Emb) (th : ℚ) (rs : ℕ)
    (h : 2 ≤ emb.length) :
    ∃ n, get_optimal_clusters E emb = some n ∧
      GMM_cluster E emb th rs =
        some ((E.gmmProba n rs emb).map (fun prob =>
          prob.enum.filterMap (fun jp => if th < jp.2 then some jp.1 else none)), n) := by
  obtain ⟨n, hn⟩ := Option.isSome_iff_exists.mp ((get_optimal_clusters_isSome_iff E emb).mpr h)
  refine ⟨n, hn, ?_⟩
  unfold GMM_cluster
  rw [hn]
  rfl

theorem mem_enum_filterMap_iff (th : ℚ) (row : List ℚ) (j : ℕ) :
    j ∈ row.enum.filterMap (fun jp => if th < jp.2 then some jp.1 else none) ↔
      (j < row.length ∧ th < row.getD j 0) := by
  rw [List.mem_filterMap]
  constructor
  · rintro ⟨jp, hmem, hif⟩
    by_cases hth : th < jp.2
    · rw [if_pos hth] at hif
      simp only [Option.some.injEq] at hif
      subst hif
      have h1 : row.get? jp.1 = some jp.2 := by
        rw [← List.mem_enum_iff_get?]
        exact hmem
      have h2 : jp.1 < row.length := List.get?_eq_some.mp h1 |>.1
      refine ⟨h2, ?_⟩
      rw [List.getD_eq_get? , h1]
      exact hth
    · rw [if_neg hth] at hif; simp at hif
  · rintro ⟨hj, hth⟩
    have hg : row.get? j = some (row.get ⟨j, hj⟩) := List.get?_eq_get hj
    have hgetD : row.getD j 0 = row.get ⟨j, hj⟩ := by
      rw [List.getD_eq_get? , hg]
      rfl
    refine ⟨(j, row.getD j 0), ?_, ?_⟩
    · rw [List.mem_enum_iff_get?]
      show row.get? j = some (row.getD j 0)
      rw [hgetD]
      exact hg
    · rw [if_pos hth]

theorem appendAt_getD_mem (u : ℕ) :
    ∀ (a : List (List ℕ)) (idx i v : ℕ),
      v ∈ (appendAt a idx u).getD i [] → v ∈ a.getD i [] ∨ v = u := by
  intro a
  induction a with
  | nil => intro idx i v h; simp [appendAt] at h
  | cons x xs ih =>
    intro idx i v h
    cases idx with
    | zero =>
      cases i with
      | zero =>
        simp only [appendAt, List.set, List.getD_cons_zero, List.mem_append,
          List.mem_singleton] at h
        rcases h with h | h
        · exact Or.inl (by simpa using h)
        · exact Or.inr h
      | succ i =>
        simp only [appendAt, List.set, List.getD_cons_succ] at h
        exact Or.inl (by simpa using h)
    | succ idx =>
      cases i with
      | zero =>
        simp only [appendAt, List.set, List.getD_cons_zero] at h
        exact Or.inl (by simpa using h)
      | succ i =>
        simp only [appendAt, List.set, List.getD_cons_succ] at h
        exact ih idx i v (by simpa [appendAt] using h)

theorem foldl_getD_pres {Q : ℕ → ℕ → Prop}
    (step : List (List ℕ) → ℕ → List (List ℕ))
    (hstep : ∀ a j i v, v ∈ (step a j).getD i [] → v ∈ a.getD i [] ∨ Q j v) :
    ∀ (js : List ℕ) (a : List (List ℕ)) (i v : ℕ),
      v ∈ (js.foldl step a).getD i [] → v ∈ a.getD i [] ∨ ∃ j ∈ js, Q j v := by
  intro js
  induction js with
  | nil => intro a i v h; exact Or.inl h
  | cons j js ih =>
    intro a i v h
    rcases ih (step a j) i v h with hin | ⟨j', hj', hq⟩
    · rcases hstep a j i v hin with hin2 | hq
      · exact Or.inl hin2
      · exact Or.inr ⟨j, List.mem_cons_self j js, hq⟩
    · exact Or.inr ⟨j', List.mem_cons_of_mem j hj', hq⟩

theorem foldl_appendAt_mem (u : ℕ) (idxs : List ℕ) (a : List (List ℕ))
    (i v : ℕ) (h : v ∈ (idxs.foldl (fun a idx => appendAt a idx u) a).getD i []) :
    v ∈ a.getD i [] ∨ v = u := by
  rcases foldl_getD_pres (Q := fun _ v => v = u)
      (fun a idx => appendAt a idx u)
      (fun a j i v hv => appendAt_getD_mem u a j i v hv) idxs a i v h with hin | ⟨_, _, hq⟩
  · exact Or.inl hin
  · exact Or.inr hq

theorem localStep_shape (E : Ext) (dim : ℕ) (th : ℚ) (emb : List Emb)
    (gcs : List (List ℕ)) (all : List (List ℕ)) (total : ℕ) (tr : List Event)
    (i : ℕ) :
    ∃ all2 n_add w,
      localStep E dim th emb gcs (all, total, tr) i = some (all2, total + n_add, tr ++ w)
      ∧ (w = [] ∨ w = [Event.umapLocal, Event.gmmLocal])
      ∧ ∀ idx v, v ∈ all2.getD idx [] →
          v ∈ all.getD idx [] ∨ (total ≤ v ∧ v < total + n_add) := by
  unfold localStep
  dsimp only
  set sel := (emb.zip gcs).filterMap
    (fun egc => if i ∈ egc.2 then some egc.1 else none) with hsel
  by_cases h0 : sel.length = 0
  · rw [if_pos h0]
    refine ⟨all, 0, [], by simp, Or.inl rfl, ?_⟩
    intro idx v hv
    exact Or.inl hv
  · rw [if_neg h0]
    by_cases h1 : sel.length ≤ dim + 1
    · rw [if_pos h1]
      simp only [Option.map_some']
      have hr1 : List.range 1 = [0] := rfl
      refine ⟨_, 1, [], rfl, Or.inl rfl, ?_⟩
      intro idx v hv
      rw [hr1] at hv
      simp only [List.foldl_cons, List.foldl_nil] at hv
      rcases foldl_appendAt_mem (0 + total) _ all idx v hv with hin | hq
      · exact Or.inl hin
      · exact Or.inr ⟨by omega, by omega⟩
    · rw [if_neg h1]
      have hlen : 2 ≤ (local_cluster_embeddings E sel dim).length := by
        unfold local_cluster_embeddings
        rw [E.umap_len]
        omega
      obtain ⟨n, -, hgmm⟩ := GMM_cluster_eq E (local_cluster_embeddings E sel dim) th 0 hlen
      rw [hgmm]
      simp only [Option.map_some']
      refine ⟨_, n, [Event.umapLocal, Event.gmmLocal], rfl, Or.inr rfl, ?_⟩
      intro idx v hv
      rcases foldl_getD_pres (Q := fun j v => v = j + total) _
          (fun a j i v hv => by
            rcases foldl_appendAt_mem (j + total) _ a i v hv with hin | hq
            · exact Or.inl hin
            · exact Or.inr hq)
          (List.range n) all idx v hv with hin | ⟨j, hj, hq⟩
      · exact Or.inl hin
      · have hjn : j < n := List.mem_range.mp hj
        exact Or.inr ⟨by omega, by omega⟩

theorem clusterLoop_shape (E : Ext) (dim : ℕ) (th : ℚ) (emb : List Emb)
    (gcs : List (List ℕ)) :
    ∀ (is : List ℕ) (all : List (List ℕ)) (total : ℕ) (tr : List Event),
      ∃ (all2 : List (List ℕ)) (total2 : ℕ) (ws : List (List Event)),
        is.foldl (fun ost i => ost.bind (fun st => localStep E dim th emb gcs st i))
            (some (all, total, tr))
          = some (all2, total2, tr ++ ws.flatten)
        ∧ ws.length = is.length
        ∧ ∀ w ∈ ws, w = [] ∨ w = [Event.umapLocal, Event.gmmLocal] := by
  intro is
  induction is with
  | nil =>
    intro all total tr
    refine ⟨all, total, ([] : List (List Event)), by simp, rfl, by simp⟩
  | cons i is ih =>
    intro all total tr
    obtain ⟨all1, n_add, w, hstep, hw, -⟩ := localStep_shape E dim th emb gcs all total tr i
    obtain ⟨all2, total2, ws, hfold, hlen, hws⟩ := ih all1 (total + n_add) (tr ++ w)
    refine ⟨all2, total2, w :: ws, ?_, by simp [hlen], ?_⟩
    · have hred : (i :: is).foldl
          (fun ost i => ost.bind fun st => localStep E dim th emb gcs st i)
          (some (all, total, tr))
        = is.foldl (fun ost i => ost.bind fun st => localStep E dim th emb gcs st i)
            (some (all1, total + n_add, tr ++ w)) := by
        rw [List.foldl_cons]
        congr 1
      rw [hred, List.flatten_cons, ← List.append_assoc]
      exact hfold
    · intro w' hw'
      rcases List.mem_cons.mp hw' with h | h
      · exact h ▸ hw
      · exact hws w' h

theorem perform_clustering_small (E : Ext) (emb : List Emb) (dim : ℕ) (th : ℚ)
    (h : emb.length ≤ dim + 1) :
    perform_clustering E emb dim th = some (emb.map (fun _ => ([0] : List ℕ)), []) := by
  unfold perform_clustering
  rw [if_pos h]

theorem perform_clustering_big (E : Ext) (emb : List Emb) (dim : ℕ) (th : ℚ)
    (h : dim + 1 < emb.length) :
    ∃ (gcs : List (List ℕ)) (n_global : ℕ) (all : List (List ℕ))
      (ws : List (List Event)),
      GMM_cluster E (global_cluster_embeddings E emb dim) th = some (gcs, n_global)
      ∧ perform_clustering E emb dim th
          = some (all, Event.umapGlobal :: Event.gmmGlobal :: ws.flatten)
      ∧ ws.length = n_global
      ∧ ∀ w ∈ ws, w = [] ∨ w = [Event.umapLocal, Event.gmmLocal] := by
  have hg : 2 ≤ (global_cluster_embeddings E emb dim).length := by
    unfold global_cluster_embeddings
    rw [E.umap_len]
    omega
  obtain ⟨n, -, hgmm⟩ := GMM_cluster_eq E (global_cluster_embeddings E emb dim) th 0 hg
  obtain ⟨all2, total2, ws, hfold, hlen, hws⟩ :=
    clusterLoop_shape E dim th emb
      ((E.gmmProba n 0 (global_cluster_embeddings E emb dim)).map (fun prob =>
        prob.enum.filterMap (fun jp => if th < jp.2 then some jp.1 else none)))
      (List.range n) (emb.map (fun _ => ([] : List ℕ))) 0 []
  refine ⟨_, n, all2, ws, hgmm, ?_, by simpa using hlen, hws⟩
  unfold perform_clustering
  rw [if_neg (by omega), hgmm, Option.some_bind]
  rw [hfold]
  rfl

theorem perform_clustering_isSome (E : Ext) (emb : List Emb) (dim : ℕ) (th : ℚ) :
    (perform_clustering E emb dim th).isSome := by
  by_cases h : emb.length ≤ dim + 1
  · rw [perform_clustering_small E emb dim th h]; rfl
  · obtain ⟨gcs, ng, all, ws, -, hp, -, -⟩ :=
      perform_clustering_big E emb dim th (by omega)
    rw [hp]; rfl

theorem perform_clustering_no_llm (E : Ext) (emb : List Emb) (dim : ℕ) (th : ℚ)
    (all : List (List ℕ)) (tr : List Event)
    (h : perform_clustering E emb dim th = some (all, tr)) :
    Event.llmCall ∉ tr := by
  by_cases hsz : emb.length ≤ dim + 1
  · rw [perform_clustering_small E emb dim th hsz] at h
    simp only [Option.some.injEq, Prod.mk.injEq] at h
    rw [← h.2]
    simp
  · obtain ⟨gcs, ng, all', ws, -, hp, -, hws⟩ :=
      perform_clustering_big E emb dim th (by omega)
    rw [hp] at h
    simp only [Option.some.injEq, Prod.mk.injEq] at h
    rw [← h.2]
    intro hmem
    rcases List.mem_cons.mp hmem with hc | hmem2
    · exact Event.noConfusion hc
    rcases List.mem_cons.mp hmem2 with hc | hmem3
    · exact Event.noConfusion hc
    obtain ⟨w, hwin, hvw⟩ := List.mem_flatten.mp hmem3
    rcases hws w hwin with hwe | hwe <;> rw [hwe] at hvw <;> simp at hvw

theorem embed_cluster_texts_eq (E : Ext) (texts : List String) :
    ∃ (cl : List (List ℕ)) (ctr : List Event),
      perform_clustering E (embed E texts) 10 (1/10) = some (cl, ctr) ∧
      embed_cluster_texts E texts
        = some (texts.zip ((embed E texts).zip cl), Event.embedCall :: ctr) := by
  obtain ⟨p, hp⟩ := Option.isSome_iff_exists.mp
    (perform_clustering_isSome E (embed E texts) 10 (1/10))
  refine ⟨p.1, p.2, by rw [hp], ?_⟩
  unfold embed_cluster_texts
  dsimp only
  rw [hp]
  rfl

theorem embed_cluster_summarize_texts_eq (E : Ext) (texts : List String) (level : ℕ) :
    ∃ (df : DF) (dfs : DFS) (tr : List Event),
      embed_cluster_summarize_texts E texts level = some ((df, dfs), tr)
      ∧ tr.count Event.llmCall = dfs.length
      ∧ dfs.map (fun r => r.2.2) = uniqueFirst ((df.map (fun r => r.2.2)).flatten) := by
  obtain ⟨cl, ctr, hperf, hect⟩ := embed_cluster_texts_eq E texts
  have hnollm : Event.llmCall ∉ ctr := perform_clustering_no_llm E _ 10 (1/10) cl ctr hperf
  unfold embed_cluster_summarize_texts
  rw [hect]
  simp only [Option.map_some']
  refine ⟨_, _, _, rfl, ?_, ?_⟩
  · rw [List.count_append, List.length_map, List.map_const', List.count_replicate_self]
    have h0 : (Event.embedCall :: ctr).count Event.llmCall = 0 := by
      rw [List.count_eq_zero]
      intro hmem
      rcases List.mem_cons.mp hmem with hc | hc
      · exact Event.noConfusion hc
      · exact hnollm hc
    rw [h0, Nat.zero_add]
  · rw [List.map_map]
    have h1 : ((fun (r : String × ℕ × ℕ) => r.2.2) ∘
        (fun c => (E.llm (summary_template (fmt_txt
          (List.map (fun p => p.1) (List.filter (fun p => p.2 = c)
            ((texts.zip ((embed E texts).zip cl)).flatMap
              (fun row => row.2.2.map (fun c => (row.1, c)))))))), level, c)))
        = fun (c : ℕ) => c := rfl
    rw [h1, List.map_id']
    congr 1
    rw [List.map_flatMap]
    rw [show (fun (row : String × Emb × List ℕ) =>
        List.map (fun p => p.2) (row.2.2.map (fun c => (row.1, c))))
      = (fun row : String × Emb × List ℕ => row.2.2) from ?_]
    · rw [← List.flatMap_def]
    · funext row
      rw [List.map_map]
      exact List.map_id' _

theorem recursive_head (E : Ext) (texts : List String) (level n_levels : ℕ)
    (out : List (ℕ × (DF × DFS)))
    (h : recursive_embed_cluster_summarize E texts level n_levels = some out) :
    ∃ pr rest, out = (level, pr) :: rest := by
  obtain ⟨df, dfs, tr, hecst, -, -⟩ := embed_cluster_summarize_texts_eq E texts level
  rw [recursive_embed_cluster_summarize.eq_def, hecst] at h
  dsimp only at h
  by_cases hc : level < n_levels ∧
      1 < (uniqueFirst (dfs.map (fun r => r.2.2))).length
  · rw [dif_pos hc] at h
    cases hrec : recursive_embed_cluster_summarize E (dfs.map (fun r => r.1))
        (level + 1) n_levels with
    | none => rw [hrec] at h; exact absurd h (by simp)
    | some rest =>
      rw [hrec] at h
      simp only [Option.some.injEq] at h
      exact ⟨(df, dfs), rest, h.symm⟩
  · rw [dif_neg hc] at h
    simp only [Option.some.injEq] at h
    exact ⟨(df, dfs), [], h.symm⟩

theorem c4_aux (E : Ext) :
    ∀ (fuel : ℕ) (texts : List String) (level n_levels : ℕ),
      n_levels - level ≤ fuel → level ≤ n_levels →
      ∃ (out : List (ℕ × (DF × DFS))) (L : ℕ),
        recursive_embed_cluster_summarize E texts level n_levels = some out
        ∧ 1 ≤ L ∧ level + (L - 1) ≤ n_levels
        ∧ out.map Prod.fst = List.range' level L := by
  intro fuel
  induction fuel with
  | zero =>
    intro texts level n_levels hfuel hle
    obtain ⟨df, dfs, tr, hecst, -, -⟩ := embed_cluster_summarize_texts_eq E texts level
    refine ⟨[(level, (df, dfs))], 1, ?_, le_refl 1, by omega, by simp⟩
    rw [recursive_embed_cluster_summarize.eq_def, hecst]
    dsimp only
    rw [dif_neg (fun hcc => absurd hcc.1 (by omega))]
  | succ fuel ih =>
    intro texts level n_levels hfuel hle
    obtain ⟨df, dfs, tr, hecst, -, -⟩ := embed_cluster_summarize_texts_eq E texts level
    by_cases hc : level < n_levels ∧
        1 < (uniqueFirst (dfs.map (fun r => r.2.2))).length
    · obtain ⟨out2, L2, hrec2, hL2, hbound2, hkeys2⟩ :=
        ih (dfs.map (fun r => r.1)) (level + 1) n_levels (by omega) (by omega)
      refine ⟨(level, (df, dfs)) :: out2, L2 + 1, ?_, by omega, by omega, ?_⟩
      · rw [recursive_embed_cluster_summarize.eq_def, hecst]
        dsimp only
        rw [dif_pos hc, hrec2]
      · rw [List.map_cons, hkeys2, List.range'_succ]
    · refine ⟨[(level, (df, dfs))], 1, ?_, le_refl 1, by omega, by simp⟩
      rw [recursive_embed_cluster_summarize.eq_def, hecst]
      dsimp only
      rw [dif_neg hc]

theorem getD_map_nil {α β : Type} {f : List α → List β} (hf : f [] = []) :
    ∀ (l : List (List α)) (i : ℕ), (l.map f).getD i [] = f (l.getD i []) := by
  intro l
  induction l with
  | nil => intro i; simp [hf]
  | cons x xs ih =>
    intro i
    cases i with
    | zero => simp
    | succ i => simp only [List.map_cons, List.getD_cons_succ]; exact ih i

/-- Claim C1: `recursive_embed_cluster_summarize` recurses on the current
level's cluster summaries exactly when the current level is strictly below
`n_levels` and the number of unique clusters produced at the current level
exceeds 1; otherwise it stops with only the current level's entry. -/
theorem c1_raptor_recursion_condition (E : Ext) (texts : List String)
    (level n_levels : ℕ) :
    ∃ (df : DF) (dfs : DFS) (tr : List Event),
      embed_cluster_summarize_texts E texts level = some ((df, dfs), tr)
      ∧ ((level < n_levels ∧ 1 < (uniqueFirst (dfs.map (fun r => r.2.2))).length) →
          recursive_embed_cluster_summarize E texts level n_levels
            = (recursive_embed_cluster_summarize E (dfs.map (fun r => r.1))
                (level + 1) n_levels).map (fun rest => (level, (df, dfs)) :: rest))
      ∧ (¬(level < n_levels ∧ 1 < (uniqueFirst (dfs.map (fun r => r.2.2))).length) →
          recursive_embed_cluster_summarize E texts level n_levels
            = some [(level, (df, dfs))])
      ∧ (∀ out, recursive_embed_cluster_summarize E texts level n_levels = some out →
          ((level + 1 ∈ out.map Prod.fst) ↔
            (level < n_levels ∧ 1 < (uniqueFirst (dfs.map (fun r => r.2.2))).length))) := by
  obtain ⟨df, dfs, tr, hecst, -, -⟩ := embed_cluster_summarize_texts_eq E texts level
  refine ⟨df, dfs, tr, hecst, ?_, ?_, ?_⟩
  · intro hc
    rw [recursive_embed_cluster_summarize.eq_def, hecst]
    dsimp only
    rw [dif_pos hc]
    cases hrec : recursive_embed_cluster_summarize E (dfs.map (fun r => r.1))
        (level + 1) n_levels with
    | none => rfl
    | some rest => rfl
  · intro hc
    rw [recursive_embed_cluster_summarize.eq_def, hecst]
    dsimp only
    rw [dif_neg hc]
  · intro out hout
    by_cases hc : level < n_levels ∧
        1 < (uniqueFirst (dfs.map (fun r => r.2.2))).length
    · rw [recursive_embed_cluster_summarize.eq_def, hecst] at hout
      dsimp only at hout
      rw [dif_pos hc] at hout
      cases hrec : recursive_embed_cluster_summarize E (dfs.map (fun r => r.1))
          (level + 1) n_levels with
      | none => rw [hrec] at hout; exact absurd hout (by simp)
      | some rest =>
        rw [hrec] at hout
        simp only [Option.some.injEq] at hout
        obtain ⟨pr2, rest2, hrest⟩ := recursive_head E _ (level + 1) n_levels rest hrec
        rw [← hout]
        exact iff_of_true (by simp [hrest]) hc
    · rw [recursive_embed_cluster_summarize.eq_def, hecst] at hout
      dsimp only at hout
      rw [dif_neg hc] at hout
      simp only [Option.some.injEq] at hout
      rw [← hout]
      exact iff_of_false (by simp) hc

/-- Instantiation of `c1_raptor_recursion_condition` at concrete oracles
and input. -/
theorem c1_raptor_recursion_condition_witness :
    ∃ (df : DF) (dfs : DFS) (tr : List Event),
      embed_cluster_summarize_texts extId ["a", "b"] 1 = some ((df, dfs), tr)
      ∧ ((1 < 3 ∧ 1 < (uniqueFirst (dfs.map (fun r => r.2.2))).length) →
          recursive_embed_cluster_summarize extId ["a", "b"] 1 3
            = (recursive_embed_cluster_summarize extId (dfs.map (fun r => r.1))
                (1 + 1) 3).map (fun rest => (1, (df, dfs)) :: rest))
      ∧ (¬(1 < 3 ∧ 1 < (uniqueFirst (dfs.map (fun r => r.2.2))).length) →
          recursive_embed_cluster_summarize extId ["a", "b"] 1 3
            = some [(1, (df, dfs))])
      ∧ (∀ out, recursive_embed_cluster_summarize extId ["a", "b"] 1 3 = some out →
          ((1 + 1 ∈ out.map Prod.fst) ↔
            (1 < 3 ∧ 1 < (uniqueFirst (dfs.map (fun r => r.2.2))).length))) :=
  c1_raptor_recursion_condition extId ["a", "b"] 1 3

/-- Claim C4: for `n_levels ≥ 1`, `recursive_embed_cluster_summarize`
starting at level 1 terminates with a defined result whose keys are
exactly the consecutive levels `1, ..., L` for some `L ≤ n_levels`.
(Totality itself is established by the well-founded definition, whose
measure `n_levels - level` decreases at each recursive call.) -/
theorem c4_raptor_termination_levels (E : Ext) (texts : List String)
    (n_levels : ℕ) (h : 1 ≤ n_levels) :
    ∃ (out : List (ℕ × (DF × DFS))) (L : ℕ),
      recursive_embed_cluster_summarize E texts 1 n_levels = some out
      ∧ 1 ≤ L ∧ L ≤ n_levels
      ∧ out.map Prod.fst = List.range' 1 L := by
  obtain ⟨out, L, hrec, hL, hbound, hkeys⟩ :=
    c4_aux E (n_levels - 1) texts 1 n_levels (by omega) h
  exact ⟨out, L, hrec, hL, by omega, hkeys⟩

/-- Instantiation of `c4_raptor_termination_levels` at concrete oracles
and input, discharging its hypothesis. -/
theorem c4_raptor_termination_levels_witness :
    1 ≤ 3 ∧
    ∃ (out : List (ℕ × (DF × DFS))) (L : ℕ),
      recursive_embed_cluster_summarize extId ["a"] 1 3 = some out
      ∧ 1 ≤ L ∧ L ≤ 3
      ∧ out.map Prod.fst = List.range' 1 L :=
  ⟨by decide, c4_raptor_termination_levels extId ["a"] 3 (by decide)⟩

/-- Claim C9: with at most `dim + 1` rows, `perform_clustering` assigns
every embedding the single cluster label 0 with an empty external-call
trace (no UMAP or Gaussian-mixture invocation); `perform_clustering`
always returns a defined result; and `get_optimal_clusters` has a defined
argmin exactly when it receives at least 2 embeddings (its candidate range
`arange(1, min(max_clusters, n))` is then non-empty). -/
theorem c9_perform_clustering_degenerate_guard (E : Ext) (emb : List Emb)
    (dim : ℕ) (th : ℚ) :
    (emb.length ≤ dim + 1 →
      perform_clustering E emb dim th = some (emb.map (fun _ => ([0] : List ℕ)), []))
    ∧ (perform_clustering E emb dim th).isSome
    ∧ (∀ e : List Emb, (get_optimal_clusters E e).isSome ↔ 2 ≤ e.length) :=
  ⟨fun h => perform_clustering_small E emb dim th h,
   perform_clustering_isSome E emb dim th,
   fun e => get_optimal_clusters_isSome_iff E e⟩

/-- Instantiation of `c9_perform_clustering_degenerate_guard` at concrete
oracles and input, discharging the inner hypothesis. -/
theorem c9_perform_clustering_degenerate_guard_witness :
    (([[0], [1], [2]] : List Emb).length ≤ 10 + 1) ∧
    perform_clustering extId [[0], [1], [2]] 10 (1/10)
      = some (([[0], [1], [2]] : List Emb).map (fun _ => ([0] : List ℕ)), [])
    ∧ (perform_clustering extId [[0], [1], [2]] 10 (1/10)).isSome
    ∧ ((get_optimal_clusters extId [[0], [1]]).isSome ↔ 2 ≤ ([[0], [1]] : List Emb).length) :=
  ⟨by decide,
   (c9_perform_clustering_degenerate_guard extId [[0], [1], [2]] 10 (1/10)).1 (by decide),
   (c9_perform_clustering_degenerate_guard extId [[0], [1], [2]] 10 (1/10)).2.1,
   (c9_perform_clustering_degenerate_guard extId [[0], [1], [2]] 10 (1/10)).2.2 [[0], [1]]⟩

/-- Claim C2: on inputs with more than `dim + 1` rows,
`perform_clustering` first reduces globally with UMAP, then clusters the
reduced embeddings with the Gaussian mixture, and then, one global
cluster at a time, optionally performs a local UMAP reduction immediately
followed by local Gaussian-mixture clustering (the external-call trace is
`umapGlobal, gmmGlobal` followed by one `[umapLocal, gmmLocal]` or empty
block per global cluster); every cluster ID a loop iteration assigns is
offset by the clusters already assigned (it lies in
`[total, total')` for the iteration's start and end counters); and
`embed_cluster_summarize_texts` makes exactly one LLM call per resulting
unique cluster, one `df_summary` row each. -/
theorem c2_raptor_pipeline_order (E : Ext) (emb : List Emb) (dim : ℕ) (th : ℚ)
    (h : dim + 1 < emb.length) :
    (∃ (gcs : List (List ℕ)) (n_global : ℕ) (all : List (List ℕ))
        (ws : List (List Event)),
      GMM_cluster E (global_cluster_embeddings E emb dim) th = some (gcs, n_global)
      ∧ perform_clustering E emb dim th
          = some (all, Event.umapGlobal :: Event.gmmGlobal :: ws.flatten)
      ∧ ws.length = n_global
      ∧ ∀ w ∈ ws, w = [] ∨ w = [Event.umapLocal, Event.gmmLocal])
    ∧ (∀ (gcs all : List (List ℕ)) (total : ℕ) (tr : List Event) (i : ℕ)
        (res : List (List ℕ) × ℕ × List Event),
        localStep E dim th emb gcs (all, total, tr) i = some res →
        ∀ idx v, v ∈ res.1.getD idx [] →
          v ∈ all.getD idx [] ∨ (total ≤ v ∧ v < res.2.1))
    ∧ (∀ (texts : List String) (level : ℕ) (df : DF) (dfs : DFS) (tr : List Event),
        embed_cluster_summarize_texts E texts level = some ((df, dfs), tr) →
        tr.count Event.llmCall = dfs.length
        ∧ dfs.map (fun r => r.2.2) = uniqueFirst ((df.map (fun r => r.2.2)).flatten)) := by
  refine ⟨perform_clustering_big E emb dim th h, ?_, ?_⟩
  · intro gcs all total tr i res hres
    obtain ⟨all2, n_add, w, heq, -, hmem⟩ := localStep_shape E dim th emb gcs all total tr i
    rw [heq] at hres
    simp only [Option.some.injEq] at hres
    rw [← hres]
    intro idx v hv
    exact hmem idx v hv
  · intro texts level df dfs tr hecst2
    obtain ⟨df', dfs', tr', hecst, hcount, hmap⟩ := embed_cluster_summarize_texts_eq E texts level
    rw [hecst2] at hecst
    simp only [Option.some.injEq, Prod.mk.injEq] at hecst
    obtain ⟨⟨hdf, hdfs⟩, htr⟩ := hecst
    subst hdf
    subst hdfs
    subst htr
    exact ⟨hcount, hmap⟩

/-- Instantiation of `c2_raptor_pipeline_order` at concrete oracles and
input, discharging its hypothesis. -/
theorem c2_raptor_pipeline_order_witness :
    (0 + 1 < ([[0], [1]] : List Emb).length) ∧
    ((∃ (gcs : List (List ℕ)) (n_global : ℕ) (all : List (List ℕ))
        (ws : List (List Event)),
      GMM_cluster extId (global_cluster_embeddings extId [[0], [1]] 0) (1/2)
        = some (gcs, n_global)
      ∧ perform_clustering extId [[0], [1]] 0 (1/2)
          = some (all, Event.umapGlobal :: Event.gmmGlobal :: ws.flatten)
      ∧ ws.length = n_global
      ∧ ∀ w ∈ ws, w = [] ∨ w = [Event.umapLocal, Event.gmmLocal])
    ∧ (∀ (gcs all : List (List ℕ)) (total : ℕ) (tr : List Event) (i : ℕ)
        (res : List (List ℕ) × ℕ × List Event),
        localStep extId 0 (1/2) [[0], [1]] gcs (all, total, tr) i = some res →
        ∀ idx v, v ∈ res.1.getD idx [] →
          v ∈ all.getD idx [] ∨ (total ≤ v ∧ v < res.2.1))
    ∧ (∀ (texts : List String) (level : ℕ) (df : DF) (dfs : DFS) (tr : List Event),
        embed_cluster_summarize_texts extId texts level = some ((df, dfs), tr) →
        tr.count Event.llmCall = dfs.length
        ∧ dfs.map (fun r => r.2.2) = uniqueFirst ((df.map (fun r => r.2.2)).flatten))) :=
  ⟨by decide, c2_raptor_pipeline_order extId [[0], [1]] 0 (1/2) (by decide)⟩

/-- Claim C3: with at least 2 embeddings, `GMM_cluster` returns soft
assignments (each embedding gets exactly the set of mixture-component
indices whose posterior probability strictly exceeds the threshold) and a
component count selected by `get_optimal_clusters` as a BIC minimizer
over the candidate range `1, ..., min(50, n) - 1`. -/
theorem c3_gmm_soft_assignment (E : Ext) (emb : List Emb) (th : ℚ) (rs : ℕ)
    (h : 2 ≤ emb.length) :
    ∃ (labels : List (List ℕ)) (n_clusters : ℕ),
      GMM_cluster E emb th rs = some (labels, n_clusters)
      ∧ get_optimal_clusters E emb = some n_clusters
      ∧ n_clusters ∈ List.range' 1 (min 50 emb.length - 1)
      ∧ (∀ m ∈ List.range' 1 (min 50 emb.length - 1),
          E.gmmBIC n_clusters RANDOM_SEED emb ≤ E.gmmBIC m RANDOM_SEED emb)
      ∧ labels.length = (E.gmmProba n_clusters rs emb).length
      ∧ (∀ i j, j ∈ labels.getD i [] ↔
          (j < ((E.gmmProba n_clusters rs emb).getD i []).length
           ∧ th < ((E.gmmProba n_clusters rs emb).getD i []).getD j 0)) := by
  obtain ⟨n, hopt, hgmm⟩ := GMM_cluster_eq E emb th rs h
  obtain ⟨hmem, hmin⟩ := get_optimal_clusters_spec E emb n hopt
  refine ⟨_, n, hgmm, hopt, hmem, hmin, List.length_map _ _, ?_⟩
  intro i j
  rw [getD_map_nil (f := fun prob =>
    prob.enum.filterMap (fun jp => if th < jp.2 then some jp.1 else none)) rfl]
  exact mem_enum_filterMap_iff th ((E.gmmProba n rs emb).getD i []) j

/-- Instantiation of `c3_gmm_soft_assignment` at concrete oracles and
input, discharging its hypothesis. -/
theorem c3_gmm_soft_assignment_witness :
    (2 ≤ ([[0], [1]] : List Emb).length) ∧
    ∃ (labels : List (List ℕ)) (n_clusters : ℕ),
      GMM_cluster extId [[0], [1]] (1/2) 0 = some (labels, n_clusters)
      ∧ get_optimal_clusters extId [[0], [1]] = some n_clusters
      ∧ n_clusters ∈ List.range' 1 (min 50 ([[0], [1]] : List Emb).length - 1)
      ∧ (∀ m ∈ List.range' 1 (min 50 ([[0], [1]] : List Emb).length - 1),
          extId.gmmBIC n_clusters RANDOM_SEED [[0], [1]]
            ≤ extId.gmmBIC m RANDOM_SEED [[0], [1]])
      ∧ labels.length = (extId.gmmProba n_clusters 0 [[0], [1]]).length
      ∧ (∀ i j, j ∈ labels.getD i [] ↔
          (j < ((extId.gmmProba n_clusters 0 [[0], [1]]).getD i []).length
           ∧ (1/2 : ℚ) < ((extId.gmmProba n_clusters 0 [[0], [1]]).getD i []).getD j 0)) :=
  ⟨by decide, c3_gmm_soft_assignment extId [[0], [1]] (1/2) 0 (by decide)⟩

end Raptor

namespace Retrieval

theorem addScore_cons_eq (kk : String) (v : ℚ) (d : String) (s : ℚ)
    (rest : List (String × ℚ)) (h : kk = d) :
    addScore ((kk, v) :: rest) d s = (kk, v + s) :: rest := by
  simp [addScore, h]

theorem addScore_cons_ne (kk : String) (v : ℚ) (d : String) (s : ℚ)
    (rest : List (String × ℚ)) (h : ¬(kk = d)) :
    addScore ((kk, v) :: rest) d s = (kk, v) :: addScore rest d s := by
  simp [addScore, h]

theorem addScore_keys_mem (d x : String) (s : ℚ) :
    ∀ f : List (String × ℚ),
      (x ∈ (addScore f d s).map Prod.fst ↔ x ∈ f.map Prod.fst ∨ x = d) := by
  intro f
  induction f with
  | nil => simp [addScore]
  | cons p rest ih =>
    obtain ⟨kk, v⟩ := p
    by_cases hk : kk = d
    · rw [addScore_cons_eq kk v d s rest hk]
      subst hk
      simp only [List.map_cons, List.mem_cons]
      tauto
    · rw [addScore_cons_ne kk v d s rest hk]
      simp only [List.map_cons, List.mem_cons]
      rw [ih]
      tauto

theorem addScore_keys_nodup (d : String) (s : ℚ) :
    ∀ f : List (String × ℚ),
      (f.map Prod.fst).Nodup → ((addScore f d s).map Prod.fst).Nodup := by
  intro f
  induction f with
  | nil => intro _; simp [addScore]
  | cons p rest ih =>
    obtain ⟨kk, v⟩ := p
    intro hnd
    simp only [List.map_cons, List.nodup_cons] at hnd
    by_cases hk : kk = d
    · rw [addScore_cons_eq kk v d s rest hk]
      simp only [List.map_cons, List.nodup_cons]
      exact hnd
    · rw [addScore_cons_ne kk v d s rest hk]
      simp only [List.map_cons, List.nodup_cons]
      refine ⟨?_, ih hnd.2⟩
      intro hmem
      rcases (addScore_keys_mem d kk s rest).mp hmem with hin | heq
      · exact hnd.1 hin
      · exact hk heq

theorem addScore_lookup (d d' : String) (s : ℚ) :
    ∀ f : List (String × ℚ),
      lookupScore (addScore f d s) d' = lookupScore f d' + (if d = d' then s else 0) := by
  intro f
  induction f with
  | nil =>
    simp only [addScore, lookupScore]
    by_cases hd : d = d' <;> simp [hd]
  | cons p rest ih =>
    obtain ⟨kk, v⟩ := p
    by_cases hk : kk = d
    · rw [addScore_cons_eq kk v d s rest hk]
      simp only [lookupScore]
      by_cases hd : kk = d'
      · rw [if_pos hd, if_pos hd, if_pos (hk.symm.trans hd)]
      · rw [if_neg hd, if_neg hd, if_neg (fun hdd => hd (hk.trans hdd))]
        ring
    · rw [addScore_cons_ne kk v d s rest hk]
      simp only [lookupScore]
      by_cases hd' : kk = d'
      · rw [if_pos hd', if_pos hd']
        have hdd : ¬(d = d') := fun hdd => hk (hd'.trans hdd.symm)
        rw [if_neg hdd]
        ring
      · rw [if_neg hd', if_neg hd']
        exact ih

theorem mem_iff_lookupScore :
    ∀ (f : List (String × ℚ)), (f.map Prod.fst).Nodup → ∀ (p : String × ℚ),
      (p ∈ f ↔ p.1 ∈ f.map Prod.fst ∧ p.2 = lookupScore f p.1) := by
  intro f
  induction f with
  | nil => intro _ p; simp
  | cons q rest ih =>
    obtain ⟨kk, v⟩ := q
    intro hnd p
    simp only [List.map_cons, List.nodup_cons] at hnd
    constructor
    · intro hp
      rcases List.mem_cons.mp hp with hpq | hpr
      · subst hpq
        simp [lookupScore]
      · have h2 := (ih hnd.2 p).mp hpr
        refine ⟨List.mem_cons_of_mem _ h2.1, ?_⟩
        have hkp : ¬(kk = p.1) := fun he => hnd.1 (he ▸ h2.1)
        simp only [lookupScore, if_neg hkp]
        exact h2.2
    · rintro ⟨hmem, hval⟩
      by_cases h1 : p.1 = kk
      · have hv : p.2 = v := by
          simpa [lookupScore, if_pos h1.symm] using hval
        have hpq : p = (kk, v) := Prod.ext h1 hv
        exact hpq ▸ List.mem_cons_self (kk, v) rest
      · have h1m : p.1 ∈ rest.map Prod.fst := by
          rcases List.mem_cons.mp hmem with hc | hc
          · exact absurd hc h1
          · exact hc
        refine List.mem_cons_of_mem _ ((ih hnd.2 p).mpr ⟨h1m, ?_⟩)
        have hkp : ¬(kk = p.1) := fun he => h1 he.symm
        simpa [lookupScore, if_neg hkp] using hval

theorem innerFold_lookup (k : ℚ) (d : String) :
    ∀ (docs : List String) (n : ℕ) (f : List (String × ℚ)),
      lookupScore ((List.enumFrom n docs).foldl
          (fun f rd => addScore f rd.2 (1 / ((rd.1 : ℚ) + k))) f) d
        = lookupScore f d
          + ((List.enumFrom n docs).map
              (fun rd => if rd.2 = d then 1 / ((rd.1 : ℚ) + k) else 0)).sum := by
  intro docs
  induction docs with
  | nil => intro n f; simp [List.enumFrom]
  | cons x xs ih =>
    intro n f
    have he : List.enumFrom n (x :: xs) = (n, x) :: List.enumFrom (n + 1) xs := rfl
    rw [he]
    simp only [List.foldl_cons, List.map_cons, List.sum_cons]
    rw [ih (n + 1) (addScore f x (1 / ((n : ℚ) + k)))]
    rw [addScore_lookup x d (1 / ((n : ℚ) + k)) f]
    by_cases hxd : x = d
    · simp only [hxd, if_true, ite_true, eq_self_iff_true]
      ring
    · simp only [hxd, if_false, ite_false, eq_self_iff_true]
      ring

theorem innerFold_keys (k : ℚ) (d : String) :
    ∀ (docs : List String) (n : ℕ) (f : List (String × ℚ)),
      (d ∈ ((List.enumFrom n docs).foldl
            (fun f rd => addScore f rd.2 (1 / ((rd.1 : ℚ) + k))) f).map Prod.fst
        ↔ d ∈ f.map Prod.fst ∨ d ∈ docs) := by
  intro docs
  induction docs with
  | nil => intro n f; simp [List.enumFrom]
  | cons x xs ih =>
    intro n f
    have he : List.enumFrom n (x :: xs) = (n, x) :: List.enumFrom (n + 1) xs := rfl
    rw [he]
    simp only [List.foldl_cons, List.mem_cons]
    rw [ih (n + 1) (addScore f x (1 / ((n : ℚ) + k)))]
    rw [addScore_keys_mem x d (1 / ((n : ℚ) + k)) f]
    tauto

theorem innerFold_nodup (k : ℚ) :
    ∀ (docs : List String) (n : ℕ) (f : List (String × ℚ)),
      (f.map Prod.fst).Nodup →
      (((List.enumFrom n docs).foldl
          (fun f rd => addScore f rd.2 (1 / ((rd.1 : ℚ) + k))) f).map Prod.fst).Nodup := by
  intro docs
  induction docs with
  | nil => intro n f h; simpa [List.enumFrom] using h
  | cons x xs ih =>
    intro n f h
    have he : List.enumFrom n (x :: xs) = (n, x) :: List.enumFrom (n + 1) xs := rfl
    rw [he]
    simp only [List.foldl_cons]
    exact ih (n + 1) _ (addScore_keys_nodup x _ f h)

theorem rrfFuse_fold_lookup (k : ℚ) (d : String) :
    ∀ (results : List (List String)) (f : List (String × ℚ)),
      lookupScore (results.foldl (fun fused docs =>
          docs.enum.foldl (fun f rd => addScore f rd.2 (1 / ((rd.1 : ℚ) + k))) fused) f) d
        = lookupScore f d + (results.map (fun docs =>
            (docs.enum.map (fun rd => if rd.2 = d then 1 / ((rd.1 : ℚ) + k) else 0)).sum)).sum := by
  intro results
  induction results with
  | nil => intro f; simp
  | cons docs rs ih =>
    intro f
    simp only [List.foldl_cons, List.map_cons, List.sum_cons]
    rw [ih]
    rw [show docs.enum = List.enumFrom 0 docs from rfl]
    rw [innerFold_lookup]
    ring

theorem rrfFuse_fold_keys (k : ℚ) (d : String) :
    ∀ (results : List (List String)) (f : List (String × ℚ)),
      (d ∈ (results.foldl (fun fused docs =>
            docs.enum.foldl (fun f rd => addScore f rd.2 (1 / ((rd.1 : ℚ) + k))) fused) f).map Prod.fst
        ↔ d ∈ f.map Prod.fst ∨ d ∈ results.flatten) := by
  intro results
  induction results with
  | nil => intro f; simp
  | cons docs rs ih =>
    intro f
    simp only [List.foldl_cons, List.flatten_cons, List.mem_append]
    rw [ih]
    rw [show docs.enum = List.enumFrom 0 docs from rfl]
    rw [innerFold_keys]
    tauto

theorem rrfFuse_fold_nodup (k : ℚ) :
    ∀ (results : List (List String)) (f : List (String × ℚ)),
      (f.map Prod.fst).Nodup →
      ((results.foldl (fun fused docs =>
          docs.enum.foldl (fun f rd => addScore f rd.2 (1 / ((rd.1 : ℚ) + k))) fused) f).map
        Prod.fst).Nodup := by
  intro results
  induction results with
  | nil => intro f h; exact h
  | cons docs rs ih =>
    intro f h
    simp only [List.foldl_cons]
    refine ih _ ?_
    rw [show docs.enum = List.enumFrom 0 docs from rfl]
    exact innerFold_nodup k docs 0 f h

/-- Claim C8: `rrf` returns one (document, score) pair per distinct
serialized document occurring in the ranked lists, the score being the
sum of `1 / (rank + k)` over the document's occurrences (0-based ranks),
and the pairs are sorted in non-increasing order of score. -/
theorem c8_rrf_reciprocal_rank_fusion (results : List (List String)) (k : ℚ)
    (hk : 0 < k) :
    ((rrf results k).map Prod.fst).Nodup
    ∧ (∀ d : String, d ∈ (rrf results k).map Prod.fst ↔ d ∈ results.flatten)
    ∧ (∀ p ∈ rrf results k, p.2 = rrfSpecScore results k p.1)
    ∧ List.Sorted byScoreDesc (rrf results k) := by
  have hperm : List.Perm (rrf results k) (rrfFuse results k) :=
    List.perm_insertionSort byScoreDesc (rrfFuse results k)
  have hnodup : ((rrfFuse results k).map Prod.fst).Nodup := by
    unfold rrfFuse
    exact rrfFuse_fold_nodup k results [] (by simp)
  refine ⟨?_, ?_, ?_, ?_⟩
  · exact (hperm.map Prod.fst).nodup_iff.mpr hnodup
  · intro d
    rw [(hperm.map Prod.fst).mem_iff]
    unfold rrfFuse
    rw [rrfFuse_fold_keys]
    simp
  · intro p hp
    have hpf : p ∈ rrfFuse results k := hperm.mem_iff.mp hp
    have hchar := (mem_iff_lookupScore (rrfFuse results k) hnodup p).mp hpf
    rw [hchar.2]
    unfold rrfFuse
    rw [rrfFuse_fold_lookup]
    simp only [lookupScore]
    rw [Rat.zero_add]
    rfl
  · exact List.sorted_insertionSort byScoreDesc (rrfFuse results k)

/-- Instantiation of `c8_rrf_reciprocal_rank_fusion` at a concrete input
with the default `k = 60`, discharging its hypothesis. -/
theorem c8_rrf_reciprocal_rank_fusion_witness :
    ((0 : ℚ) < 60) ∧
    ((rrf [["a", "b"], ["b"]] 60).map Prod.fst).Nodup
    ∧ (∀ d : String,
        d ∈ (rrf [["a", "b"], ["b"]] 60).map Prod.fst ↔ d ∈ [["a", "b"], ["b"]].flatten)
    ∧ (∀ p ∈ rrf [["a", "b"], ["b"]] 60, p.2 = rrfSpecScore [["a", "b"], ["b"]] 60 p.1)
    ∧ List.Sorted byScoreDesc (rrf [["a", "b"], ["b"]] 60) :=
  ⟨by norm_num, c8_rrf_reciprocal_rank_fusion [["a", "b"], ["b"]] 60 (by norm_num)⟩

end Retrieval

namespace Crag

theorem generate_alookup (sres : String) :
    alookup sres generate_edges
      = if sres = "useful" then some Node.endNode
        else if sres = "notuseful" then some Node.web_search
        else if sres = "not supported" then some Node.generate
        else none := by
  by_cases h1 : sres = "useful"
  · rw [h1]; decide
  · rw [if_neg h1]
    by_cases h2 : sres = "notuseful"
    · rw [h2]; decide
    · rw [if_neg h2]
      by_cases h3 : sres = "not supported"
      · rw [h3]; decide
      · rw [if_neg h3]
        simp only [generate_edges, alookup]
        rw [if_neg (fun hh => h1 hh.symm), if_neg (fun hh => h2 hh.symm),
          if_neg (fun hh => h3 hh.symm)]

theorem grade_alookup (sres : String) :
    alookup sres grade_documents_edges
      = if sres = "web_search" then some Node.web_search
        else if sres = "generate" then some Node.generate
        else none := by
  by_cases h1 : sres = "web_search"
  · rw [h1]; decide
  · rw [if_neg h1]
    by_cases h2 : sres = "generate"
    · rw [h2]; decide
    · rw [if_neg h2]
      simp only [grade_documents_edges, alookup]
      rw [if_neg (fun hh => h1 hh.symm), if_neg (fun hh => h2 hh.symm)]

theorem evaluate_response_cases (E : CragExt) (st : GraphState) :
    evaluate_response E st = "useful" ∨ evaluate_response E st = "notuseful"
      ∨ evaluate_response E st = "not supported" := by
  unfold evaluate_response
  by_cases h1 : E.hallucinationGrade st.documents st.generation = "yes"
  · by_cases h2 : E.answerGrade st.question st.generation = "yes"
    · rw [if_pos h1, if_pos h2]; exact Or.inl rfl
    · rw [if_pos h1, if_neg h2]; exact Or.inr (Or.inl rfl)
  · rw [if_neg h1]; exact Or.inr (Or.inr rfl)

/-- Claim C10: in the compiled CRAG workflow, a transition into `END`
happens only from the `fallback` node or from the `generate` node when
`evaluate_response` returns `useful`; and whenever `grade_documents`
leaves the filtered document list empty, the next node is `web_search`
and never `generate`. -/
theorem c10_crag_graph_exits (E : CragExt) (st : GraphState) (n : Node) :
    (nextAfter E st n = some Node.endNode →
      n = Node.fallback ∨ (n = Node.generate ∧ evaluate_response E st = "useful"))
    ∧ ((grade_documents_run E st).documents = [] →
        nextAfter E (grade_documents_run E st) Node.grade_documents
            = some Node.web_search
          ∧ nextAfter E (grade_documents_run E st) Node.grade_documents
              ≠ some Node.generate) := by
  constructor
  · intro h
    cases n with
    | retrieve => simp [nextAfter] at h
    | web_search => simp [nextAfter] at h
    | fallback => exact Or.inl rfl
    | generate =>
      rw [show nextAfter E st Node.generate
          = alookup (evaluate_response E st) generate_edges from rfl,
        generate_alookup] at h
      split_ifs at h with h1 h2 h3
      · exact Or.inr ⟨rfl, h1⟩
      all_goals simp at h
    | grade_documents =>
      rw [show nextAfter E st Node.grade_documents
          = alookup (decide_to_generate st) grade_documents_edges from rfl,
        grade_alookup] at h
      split_ifs at h <;> simp at h
    | endNode => simp [nextAfter] at h
  · intro hempty
    have hdec : decide_to_generate (grade_documents_run E st) = "web_search" := by
      unfold decide_to_generate
      rw [if_pos hempty]
    have hnext : nextAfter E (grade_documents_run E st) Node.grade_documents
        = some Node.web_search := by
      rw [show nextAfter E (grade_documents_run E st) Node.grade_documents
          = alookup (decide_to_generate (grade_documents_run E st))
              grade_documents_edges from rfl,
        hdec]
      decide
    refine ⟨hnext, ?_⟩
    rw [hnext]
    decide

/-- Instantiation of `c10_crag_graph_exits` at concrete grading oracles
and state, discharging both hypotheses. -/
theorem c10_crag_graph_exits_witness :
    (nextAfter cragExtYes stEmpty Node.generate = some Node.endNode) ∧
    ((grade_documents_run cragExtYes stEmpty).documents = []) ∧
    (Node.generate = Node.fallback ∨
      (Node.generate = Node.generate ∧ evaluate_response cragExtYes stEmpty = "useful")) ∧
    (nextAfter cragExtYes (grade_documents_run cragExtYes stEmpty) Node.grade_documents
        = some Node.web_search
      ∧ nextAfter cragExtYes (grade_documents_run cragExtYes stEmpty) Node.grade_documents
          ≠ some Node.generate) :=
  ⟨by decide, by decide,
   (c10_crag_graph_exits cragExtYes stEmpty Node.generate).1 (by decide),
   (c10_crag_graph_exits cragExtYes stEmpty Node.generate).2 (by decide)⟩

/-- Counterexample to claim C6 as stated: the repository's own workflow
wiring does detect unsatisfactory steps and re-route to correct them —
with grading oracles that report an ungrounded generation, the edge after
`generate` loops back to `generate` instead of ending. -/
theorem c6_counterexample_corrective_rerouting : ¬ NoCorrectiveRerouting :=
  fun h => absurd (h cragExtNo stEmpty).1 (by decide)

/-- Claim C6 as amended: the repository's error detection and recovery is
exactly the CRAG graph's conditional re-routing — after `generate`,
`useful` ends the run, `notuseful` re-routes to `web_search`, an
ungrounded generation re-routes back to `generate`; after
`grade_documents`, an empty filtered list re-routes to `web_search`,
otherwise execution proceeds to `generate`. -/
theorem c6_amended_recovery_policy (E : CragExt) (st : GraphState) :
    nextAfter E st Node.generate
      = some (if evaluate_response E st = "useful" then Node.endNode
          else if evaluate_response E st = "notuseful" then Node.web_search
          else Node.generate)
    ∧ nextAfter E st Node.grade_documents
        = some (if st.documents = [] then Node.web_search else Node.generate)
    ∧ evaluate_response E st
        ∈ (["useful", "notuseful", "not supported"] : List String) := by
  refine ⟨?_, ?_, ?_⟩
  · rw [show nextAfter E st Node.generate
        = alookup (evaluate_response E st) generate_edges from rfl,
      generate_alookup]
    rcases evaluate_response_cases E st with he | he | he <;> rw [he] <;> decide
  · rw [show nextAfter E st Node.grade_documents
        = alookup (decide_to_generate st) grade_documents_edges from rfl,
      grade_alookup]
    unfold decide_to_generate
    by_cases hd : st.documents = [] <;> simp [hd]
  · rcases evaluate_response_cases E st with he | he | he <;> rw [he] <;> decide

end Crag

namespace Storage

/-- Counterexample to claim C5 as stated: the notebooks do write handled
data to durable storage — the retrieval notebook's
`Chroma.from_documents(..., persist_directory="data/vectorstore")`
followed by `vectorstore.persist()` persists document chunks and their
embeddings on disk, so the repository's set of durable writes is not
empty. -/
theorem c5_counterexample_vectorstore_persisted :
    "data/vectorstore" ∈ repositoryDurableWrites ∧ repositoryDurableWrites ≠ [] := by
  decide

/-- Claim C5 as amended: all data handled by the notebooks lives in
transient notebook variables except the persisted vector stores — every
durable write the repository's code performs is a Chroma vector-store
persistence into one of the configured `persist_directory` paths
(`data/vectorstore`, `data/vectorstore_lora`, `data/vectorstore_bert`). -/
theorem c5_amended_writes_only_chroma_dirs :
    ∀ d ∈ repositoryDurableWrites,
      ∃ s ∈ repositoryStores, s.persist_directory = some d
        ∧ d ∈ (["data/vectorstore", "data/vectorstore_lora",
                "data/vectorstore_bert"] : List String) := by
  decide

/-- Instantiation of `c5_amended_writes_only_chroma_dirs` at a concrete
directory, discharging its hypothesis. -/
theorem c5_amended_writes_only_chroma_dirs_witness :
    ("data/vectorstore" ∈ repositoryDurableWrites) ∧
    ∃ s ∈ repositoryStores, s.persist_directory = some ("data/vectorstore")
      ∧ "data/vectorstore" ∈ (["data/vectorstore", "data/vectorstore_lora",
          "data/vectorstore_bert"] : List String) :=
  ⟨by decide, c5_amended_writes_only_chroma_dirs ("data/vectorstore") (by decide)⟩

end Storage

/-- Claim C7: the notebook pipelines are non-deterministic — for the fixed
question of the retrieval notebook, two runs of the `generate_queries`
chain (which samples at temperature 0.7) can produce different outputs,
and the RAPTOR routine's UMAP reductions are constructed without a fixed
random seed (`random_state` is never passed). -/
theorem c7_pipelines_nondeterministic :
    (∃ n1 n2 : ℕ, MultiQuery.generate_queries ("What is QLoRA?") n1
        ≠ MultiQuery.generate_queries ("What is QLoRA?") n2)
    ∧ MultiQuery.generate_queries_llm.temperature = 7/10
    ∧ (∀ nn dim metric, (Raptor.global_umap_params nn dim metric).random_state = none)
    ∧ (∀ nn dim metric, (Raptor.local_umap_params nn dim metric).random_state = none) := by
  refine ⟨⟨0, 1, ?_⟩, rfl, fun nn dim metric => rfl, fun nn dim metric => rfl⟩
  have htemp : ¬(MultiQuery.generate_queries_llm.temperature = 0) := by
    norm_num [MultiQuery.generate_queries_llm]
  have hcc : ∀ noise : ℕ,
      MultiQuery.generate_queries ("What is QLoRA?") noise
        = MultiQuery.splitNewlines (("sampled:") ++ (toString noise) ++ (":")
            ++ MultiQuery.multi_query_prompt ("What is QLoRA?")) := by
    intro noise
    unfold MultiQuery.generate_queries MultiQuery.chatComplete
    rw [if_neg htemp]
  rw [hcc 0, hcc 1]
  decide
